import Mathlib

/-!
Verification of the single-node blockchain ledger (src/main.rs).

The development shallowly embeds the core of the program: the SHA-256
hashing utility, the serde_json canonical serialization of blocks, the
Block/Blockchain data model, mining (proof_of_work / valid_proof), chain
validation (valid_chain), the peer registry (register_node) and conflict
resolution (resolve_conflicts).  Effects are made explicit: the fresh
timestamp taken by Block::new is an argument, the HTTP fetches done by
resolve_conflicts become the list of peer responses in iteration order,
and the url-crate parse result consumed by register_node is passed as a
ParsedUrl value.  All definitions are executable and kernel-reducible.
-/

/-! SHA-256, bit-exact, over byte lists, with 32-bit words as Nat mod 2^32. -/

def w32 : Nat := 4294967296

def rotr32 (n x : Nat) : Nat := ((x >>> n) ||| (x <<< (32 - n))) % w32

def sha256K : List Nat :=
  [1116352408, 1899447441, 3049323471, 3921009573, 961987163,
   1508970993, 2453635748, 2870763221, 3624381080, 310598401,
   607225278, 1426881987, 1925078388, 2162078206, 2614888103,
   3248222580, 3835390401, 4022224774, 264347078, 604807628,
   770255983, 1249150122, 1555081692, 1996064986, 2554220882,
   2821834349, 2952996808, 3210313671, 3336571891, 3584528711,
   113926993, 338241895, 666307205, 773529912, 1294757372,
   1396182291, 1695183700, 1986661051, 2177026350, 2456956037,
   2730485921, 2820302411, 3259730800, 3345764771, 3516065817,
   3600352804, 4094571909, 275423344, 430227734, 506948616,
   659060556, 883997877, 958139571, 1322822218, 1537002063,
   1747873779, 1955562222, 2024104815, 2227730452, 2361852424,
   2428436474, 2756734187, 3204031479, 3329325298]

structure Sha256Regs where
  ra : Nat
  rb : Nat
  rc : Nat
  rd : Nat
  re : Nat
  rf : Nat
  rg : Nat
  rh : Nat

def sha256Init : Sha256Regs :=
  ⟨1779033703, 3144134277, 1013904242, 2773480762,
   1359893119, 2600822924, 528734635, 1541459225⟩

def sha256Round (r : Sha256Regs) (k wi : Nat) : Sha256Regs :=
  let s1 := rotr32 6 r.re ^^^ rotr32 11 r.re ^^^ rotr32 25 r.re
  let ch := (r.re &&& r.rf) ^^^ ((r.re ^^^ 4294967295) &&& r.rg)
  let temp1 := (r.rh + s1 + ch + k + wi) % w32
  let s0 := rotr32 2 r.ra ^^^ rotr32 13 r.ra ^^^ rotr32 22 r.ra
  let maj := (r.ra &&& r.rb) ^^^ (r.ra &&& r.rc) ^^^ (r.rb &&& r.rc)
  let temp2 := (s0 + maj) % w32
  ⟨(temp1 + temp2) % w32, r.ra, r.rb, r.rc, (r.rd + temp1) % w32, r.re, r.rf, r.rg⟩

def sha256Rounds : List (Nat × Nat) → Sha256Regs → Sha256Regs
  | [], r => r
  | (k, wi) :: rest, r => sha256Rounds rest (sha256Round r k wi)

def extendSchedule : Nat → Array Nat → Array Nat
  | 0, ws => ws
  | n + 1, ws =>
    let i := ws.size
    let w15 := ws.getD (i - 15) 0
    let w2 := ws.getD (i - 2) 0
    let w16 := ws.getD (i - 16) 0
    let w7 := ws.getD (i - 7) 0
    let s0 := rotr32 7 w15 ^^^ rotr32 18 w15 ^^^ (w15 >>> 3)
    let s1 := rotr32 17 w2 ^^^ rotr32 19 w2 ^^^ (w2 >>> 10)
    extendSchedule n (ws.push ((w16 + s0 + w7 + s1) % w32))

def bytesToWords : List Nat → List Nat
  | b0 :: b1 :: b2 :: b3 :: rest => (((b0 * 256 + b1) * 256 + b2) * 256 + b3) :: bytesToWords rest
  | _ => []

def wordsToBytes : List Nat → List Nat
  | [] => []
  | w :: rest => (w >>> 24) % 256 :: (w >>> 16) % 256 :: (w >>> 8) % 256 :: w % 256 :: wordsToBytes rest

def sha256Block (hs : Sha256Regs) (blockBytes : List Nat) : Sha256Regs :=
  let ws := extendSchedule 48 (Array.mk (bytesToWords blockBytes))
  let r := sha256Rounds (List.zip sha256K ws.toList) hs
  ⟨(hs.ra + r.ra) % w32, (hs.rb + r.rb) % w32, (hs.rc + r.rc) % w32, (hs.rd + r.rd) % w32,
   (hs.re + r.re) % w32, (hs.rf + r.rf) % w32, (hs.rg + r.rg) % w32, (hs.rh + r.rh) % w32⟩

def be64 (n : Nat) : List Nat :=
  [(n >>> 56) % 256, (n >>> 48) % 256, (n >>> 40) % 256, (n >>> 32) % 256,
   (n >>> 24) % 256, (n >>> 16) % 256, (n >>> 8) % 256, n % 256]

def padBytes (msg : List Nat) : List Nat :=
  let len := msg.length
  let z := (119 - len % 64) % 64
  msg ++ 128 :: (List.replicate z 0 ++ be64 (8 * len))

def chunksGo : Nat → List Nat → List (List Nat)
  | 0, _ => []
  | n + 1, l => l.take 64 :: chunksGo n (l.drop 64)

def chunk64 (l : List Nat) : List (List Nat) := chunksGo (l.length / 64) l

def sha256 (msg : List Nat) : List Nat :=
  let fin := (chunk64 (padBytes msg)).foldl sha256Block sha256Init
  wordsToBytes [fin.ra, fin.rb, fin.rc, fin.rd, fin.re, fin.rf, fin.rg, fin.rh]

def hexDigit (n : Nat) : Char := if n < 10 then Char.ofNat (48 + n) else Char.ofNat (87 + n)

def bytesToHexChars : List Nat → List Char
  | [] => []
  | b :: rest => hexDigit (b / 16) :: hexDigit (b % 16) :: bytesToHexChars rest

def utf8EncodeChar (c : Char) : List Nat :=
  let n := c.toNat
  if n < 128 then [n]
  else if n < 2048 then [192 + n / 64, 128 + n % 64]
  else if n < 65536 then [224 + n / 4096, 128 + (n / 64) % 64, 128 + n % 64]
  else [240 + n / 262144, 128 + (n / 4096) % 64, 128 + (n / 64) % 64, 128 + n % 64]

def strBytes (s : String) : List Nat := s.data.flatMap utf8EncodeChar

/-- Lower-case hex SHA-256 digest of the UTF-8 bytes of a string: the Lean
form of Rust format to hex of Sha256 chained over the string. -/
def sha256hex (s : String) : String := String.mk (bytesToHexChars (sha256 (strBytes s)))

/-! Data model (structs Transaction, Block, Blockchain, FullChain of src/main.rs). -/

/-- Representation of an f32 amount.  The program never computes with the
amount; the only observable use is the serde_json decimal rendering it
contributes to a block serialization, so the embedding carries exactly that
rendering. -/
structure F32 where
  lit : String
deriving DecidableEq

structure Transaction where
  sender : String
  recipient : String
  amount : F32
deriving DecidableEq

structure Block where
  index : Nat
  timestamp : String
  transactions : List Transaction
  proof : Nat
  previous_hash : String
deriving DecidableEq

/-- Body of the peer /chain response: a candidate chain plus its reported
length field, exactly as deserialized in resolve_conflicts. -/
structure FullChain where
  chain : List Block
  length : Nat
deriving DecidableEq

/-- Ledger state.  The HashSet of peer nodes is modelled as the
duplicate-free list of its elements in insertion order. -/
structure Blockchain where
  current_transactions : List Transaction
  chain : List Block
  nodes : List String
deriving DecidableEq

/-- Host and optional port of a parsed peer URI, the part of the url-crate
Url value that register_node consumes. -/
structure ParsedUrl where
  host : Option String
  port : Option Nat

/-! serde_json serialization of blocks (field order as declared in the
struct: index, timestamp, transactions, proof, previous_hash; no spaces). -/

def jsonEscapeChar (c : Char) : List Char :=
  if c = Char.ofNat 34 then [Char.ofNat 92, Char.ofNat 34]
  else if c = Char.ofNat 92 then [Char.ofNat 92, Char.ofNat 92]
  else if c.toNat = 8 then [Char.ofNat 92, Char.ofNat 98]
  else if c.toNat = 9 then [Char.ofNat 92, Char.ofNat 116]
  else if c.toNat = 10 then [Char.ofNat 92, Char.ofNat 110]
  else if c.toNat = 12 then [Char.ofNat 92, Char.ofNat 102]
  else if c.toNat = 13 then [Char.ofNat 92, Char.ofNat 114]
  else if c.toNat < 32 then
    [Char.ofNat 92, Char.ofNat 117, Char.ofNat 48, Char.ofNat 48,
     hexDigit (c.toNat / 16), hexDigit (c.toNat % 16)]
  else [c]

def jsonString (s : String) : String :=
  "\"" ++ String.mk (s.data.flatMap jsonEscapeChar) ++ "\""

def transactionJson (t : Transaction) : String :=
  "\x7b\"sender\":" ++ jsonString t.sender ++
  ",\"recipient\":" ++ jsonString t.recipient ++
  ",\"amount\":" ++ t.amount.lit ++ "\x7d"

def transactionsJson (ts : List Transaction) : String :=
  "[" ++ String.intercalate "," (ts.map transactionJson) ++ "]"

def blockJson (b : Block) : String :=
  "\x7b\"index\":" ++ Nat.repr b.index ++
  ",\"timestamp\":" ++ jsonString b.timestamp ++
  ",\"transactions\":" ++ transactionsJson b.transactions ++
  ",\"proof\":" ++ Nat.repr b.proof ++
  ",\"previous_hash\":" ++ jsonString b.previous_hash ++ "\x7d"

/-- Block::hash — the hex digest of the block's canonical serde_json
serialization. -/
def Block.hash (b : Block) : String := sha256hex (blockJson b)

/-! Ledger operations. -/

/-- Blockchain::new_block.  The fresh Utc::now() timestamp taken by
Block::new is the explicit argument ts; the returned Block is the one the
source returns by reference after pushing it. -/
def Blockchain.new_block (bc : Blockchain) (proof : Nat) (prev_hash : String) (ts : String) :
    Blockchain × Block :=
  let block : Block :=
    { index := bc.chain.length + 1, timestamp := ts,
      transactions := bc.current_transactions, proof := proof, previous_hash := prev_hash }
  ({ current_transactions := [], chain := bc.chain ++ [block], nodes := bc.nodes }, block)

/-- Blockchain::new — empty state, then new_block(1, hex(sha256("1"))). -/
def Blockchain.new (ts : String) : Blockchain :=
  let blockchain : Blockchain := { current_transactions := [], chain := [], nodes := [] }
  let prev_hash := sha256hex "1"
  (Blockchain.new_block blockchain 1 prev_hash ts).1

/-- Blockchain::new_transaction — push the transaction, then report the
index of the chain's last block plus one, or 0 on an empty chain. -/
def Blockchain.new_transaction (bc : Blockchain) (sender recipient : String) (amount : F32) :
    Blockchain × Nat :=
  let transaction : Transaction := { sender := sender, recipient := recipient, amount := amount }
  let bc2 := { bc with current_transactions := bc.current_transactions ++ [transaction] }
  match bc2.chain.getLast? with
  | some block => (bc2, block.index + 1)
  | none => (bc2, 0)

/-- HashSet::insert on the list model: false and unchanged when the element
is present, append and true when it is new. -/
def insertNode (nodes : List String) (s : String) : List String × Bool :=
  if s ∈ nodes then (nodes, false) else (nodes ++ [s], true)

/-- Blockchain::register_node on the parsed URI: insert host or host:port
when a host exists, otherwise return false leaving the set untouched. -/
def Blockchain.register_node (bc : Blockchain) (parsed_url : ParsedUrl) : Blockchain × Bool :=
  match parsed_url.host with
  | some host =>
    match parsed_url.port with
    | some port =>
      let r := insertNode bc.nodes (host ++ ":" ++ Nat.repr port)
      ({ bc with nodes := r.1 }, r.2)
    | none =>
      let r := insertNode bc.nodes host
      ({ bc with nodes := r.1 }, r.2)
  | none => (bc, false)

/-- Blockchain::valid_proof — the hex digest of the concatenated decimal
forms of the two proofs and the last hash must start with "00000". -/
def Blockchain.valid_proof (last_proof proof : Nat) (last_hash : String) : Bool :=
  let guess := toString last_proof ++ toString proof ++ last_hash
  let guess_hash := sha256hex guess
  guess_hash.take 5 == "00000"

/-- Blockchain::proof_of_work — the source loops proof upward from 0 until
valid_proof holds, so given that a solution exists the loop terminates and
its result is the least solution, Nat.find. -/
def Blockchain.proof_of_work (last_block : Block)
    (ex : ∃ p, Blockchain.valid_proof last_block.proof p (Block.hash last_block) = true) : Nat :=
  Nat.find ex

/-- Loop body of Blockchain::valid_chain.  prev_block_hash is computed once
from the first block and, exactly as in the source, never recomputed when
prev advances. -/
def validChainLoop (prev : Block) (prev_block_hash : String) : List Block → Bool
  | [] => true
  | block :: rest =>
    if block.previous_hash != prev_block_hash then false
    else if !(Blockchain.valid_proof prev.proof block.proof prev_block_hash) then false
    else validChainLoop block prev_block_hash rest

/-- Blockchain::valid_chain — false on the empty chain, otherwise the walk
from the second block onward. -/
def Blockchain.valid_chain (chain : List Block) : Bool :=
  match chain with
  | [] => false
  | first :: rest => validChainLoop first (Block.hash first) rest

/-- Body of the per-peer step of Blockchain::resolve_conflicts: adopt the
fetched chain when its reported length beats the current chain's length and
it validates. -/
def resolveStep (bc : Blockchain) (res : FullChain) : Blockchain :=
  if decide (res.length > bc.chain.length) && Blockchain.valid_chain res.chain then
    { bc with chain := res.chain }
  else bc

/-- Blockchain::resolve_conflicts.  The HTTP fetch of each peer's /chain is
modelled by the list of deserialized responses in peer-iteration order. -/
def Blockchain.resolve_conflicts (bc : Blockchain) (responses : List FullChain) : Blockchain :=
  responses.foldl resolveStep bc

/-- Blockchain::full_chain — snapshot of the chain with its length. -/
def Blockchain.full_chain (bc : Blockchain) : FullChain :=
  { chain := bc.chain, length := bc.chain.length }

/-! Specification-side definitions, written from the spec's words, to be
compared with the code-side definitions above. -/

/-- Spec reading of valid_proof (§4.3): concatenate the decimal string
forms of last_proof and proof with last_hash, hash, and require the first
five hex characters to equal "00000". -/
def validProofSpec (last_proof proof : Nat) (last_hash : String) : Prop :=
  (sha256hex (Nat.repr last_proof ++ Nat.repr proof ++ last_hash)).take 5 = "00000"

/-- Spec reading of conflict resolution (§4.5): walk the responses in
order, adopting any candidate whose reported length exceeds the length of
the chain held so far and which validates; later candidates are compared
against the chain as already replaced. -/
def resolveSpec (localChain : List Block) : List FullChain → List Block
  | [] => localChain
  | r :: rs =>
    if r.length > localChain.length ∧ Blockchain.valid_chain r.chain = true then
      resolveSpec r.chain rs
    else
      resolveSpec localChain rs

/-! Concrete witness data: an honestly mined three-block chain.  cbB1 is a
genesis-shaped block; cbB2 and cbB3 each link to the hash of their
predecessor and carry a proof actually satisfying valid_proof against that
predecessor (mined offline: 79018 and 687352). -/

def cbB1 : Block :=
  { index := 1, timestamp := "2019-01-01 00:00:00 UTC", transactions := [], proof := 1,
    previous_hash := "6b86b273ff34fce19d6b804eff5a3f5747ada4eaa22f1d49c01e52ddb7875b4b" }

def cbB2 : Block :=
  { index := 2, timestamp := "2019-01-01 00:01:00 UTC", transactions := [], proof := 79018,
    previous_hash := "a10c6a3fd295d035954a77cf594c2e0cad66c79e75f6a703d5bb426dd146cf75" }

def cbB3 : Block :=
  { index := 3, timestamp := "2019-01-01 00:02:00 UTC", transactions := [], proof := 687352,
    previous_hash := "e4d3f8c0a69825eda3e79d372b89189842a2ec7d38574949411f217d0d4ea29c" }

/-- Ledger whose two-block local chain is about to be shortened by a
response that over-reports its candidate length. -/
def cbLocal : Blockchain := { current_transactions := [], chain := [cbB1, cbB2], nodes := [] }

/-- Peer response carrying a single-block candidate but reporting length 5. -/
def cbShortResp : FullChain := { chain := [cbB1], length := 5 }

/-- Honest peer response: reported length equals the candidate's length. -/
def cbHonestResp : FullChain := { chain := [cbB1], length := 1 }

/-! Theorems. -/

/-- Sanity anchor for the digest implementation: the two digests hardwired
by the program's genesis construction and its documentation. -/
theorem sha256hex_one :
    sha256hex "1" = "6b86b273ff34fce19d6b804eff5a3f5747ada4eaa22f1d49c01e52ddb7875b4b" := by
  decide

set_option maxRecDepth 100000

/-- C2: valid_proof holds exactly when the first five characters of the
lowercase hex SHA-256 digest of the decimal form of last_proof, the decimal
form of proof, and last_hash, concatenated with no separators, are "00000". -/
theorem valid_proof_iff_leading_zeros (lp p : Nat) (lh : String) :
    Blockchain.valid_proof lp p lh = true ↔ validProofSpec lp p lh := by
  unfold Blockchain.valid_proof validProofSpec
  exact beq_iff_eq

/-- C6: new_block appends exactly one block carrying index equal to the old
chain length plus one, the pooled transactions in order, and the given
proof, previous_hash and timestamp; the pool is emptied, the rest of the
chain and the peer set are untouched, and the appended block is returned. -/
theorem new_block_spec (bc : Blockchain) (proof : Nat) (prev_hash ts : String) :
    (Blockchain.new_block bc proof prev_hash ts).2.index = bc.chain.length + 1 ∧
    (Blockchain.new_block bc proof prev_hash ts).2.timestamp = ts ∧
    (Blockchain.new_block bc proof prev_hash ts).2.transactions = bc.current_transactions ∧
    (Blockchain.new_block bc proof prev_hash ts).2.proof = proof ∧
    (Blockchain.new_block bc proof prev_hash ts).2.previous_hash = prev_hash ∧
    (Blockchain.new_block bc proof prev_hash ts).1.chain =
      bc.chain ++ [(Blockchain.new_block bc proof prev_hash ts).2] ∧
    (Blockchain.new_block bc proof prev_hash ts).1.current_transactions = [] ∧
    (Blockchain.new_block bc proof prev_hash ts).1.nodes = bc.nodes :=
  ⟨rfl, rfl, rfl, rfl, rfl, rfl, rfl, rfl⟩

/-- C7: construction yields the one-block genesis chain: index 1, proof 1,
previous_hash the lowercase hex SHA-256 digest of "1" (whose concrete value
is also verified), no transactions, and empty pool and peer set. -/
theorem genesis_spec (ts : String) :
    (Blockchain.new ts).chain = [Block.mk 1 ts [] 1 (sha256hex "1")] ∧
    sha256hex "1" = "6b86b273ff34fce19d6b804eff5a3f5747ada4eaa22f1d49c01e52ddb7875b4b" ∧
    (Blockchain.new ts).current_transactions = [] ∧
    (Blockchain.new ts).nodes = [] :=
  ⟨rfl, sha256hex_one, rfl, rfl⟩

/-- C8: new_transaction appends the transaction to the pool, leaves chain
and peers unchanged, and returns the last block's index plus one on a
non-empty chain and 0 on an empty chain. -/
theorem new_transaction_spec (pool : List Transaction) (pre : List Block) (b : Block)
    (ns : List String) (sndr rcpt : String) (amt : F32) :
    (Blockchain.new_transaction ⟨pool, pre ++ [b], ns⟩ sndr rcpt amt).1 =
      ⟨pool ++ [⟨sndr, rcpt, amt⟩], pre ++ [b], ns⟩ ∧
    (Blockchain.new_transaction ⟨pool, pre ++ [b], ns⟩ sndr rcpt amt).2 = b.index + 1 ∧
    (Blockchain.new_transaction ⟨pool, [], ns⟩ sndr rcpt amt).1 =
      ⟨pool ++ [⟨sndr, rcpt, amt⟩], [], ns⟩ ∧
    (Blockchain.new_transaction ⟨pool, [], ns⟩ sndr rcpt amt).2 = 0 := by
  refine ⟨?_, ?_, rfl, rfl⟩ <;>
    simp [Blockchain.new_transaction, List.getLast?_concat]

/-- C9: register_node on a parsed URI with a host inserts host or
host:port into the peer set and reports exactly whether the entry was new;
with no host it returns false and leaves the whole state unchanged. -/
theorem register_node_spec (bc : Blockchain) (hst : String) (prt : Nat) (po : Option Nat) :
    Blockchain.register_node bc ⟨none, po⟩ = (bc, false) ∧
    Blockchain.register_node bc ⟨some hst, none⟩ =
      ({ bc with nodes := (insertNode bc.nodes hst).1 }, (insertNode bc.nodes hst).2) ∧
    Blockchain.register_node bc ⟨some hst, some prt⟩ =
      ({ bc with nodes := (insertNode bc.nodes (hst ++ ":" ++ Nat.repr prt)).1 },
        (insertNode bc.nodes (hst ++ ":" ++ Nat.repr prt)).2) ∧
    ((insertNode bc.nodes hst).2 = true ↔ hst ∉ bc.nodes) ∧
    ((insertNode bc.nodes hst).2 = false ↔ hst ∈ bc.nodes) ∧
    (insertNode bc.nodes hst).1 = (if hst ∈ bc.nodes then bc.nodes else bc.nodes ++ [hst]) := by
  refine ⟨rfl, rfl, rfl, ?_, ?_, ?_⟩ <;>
    by_cases h : hst ∈ bc.nodes <;> simp [insertNode, h]

/-- The validation walk reads nothing of the final block beyond its
previous_hash and proof fields. -/
theorem validChainLoop_last_metadata (x y : Block) (hph : x.previous_hash = y.previous_hash)
    (hpf : x.proof = y.proof) (bs : List Block) :
    ∀ (prev : Block) (ph : String),
      validChainLoop prev ph (bs ++ [x]) = validChainLoop prev ph (bs ++ [y]) := by
  induction bs with
  | nil =>
    intro prev ph
    simp [validChainLoop, hph, hpf]
  | cons b bs ih =>
    intro prev ph
    simp only [List.cons_append, validChainLoop, List.append_eq]
    rw [ih b ph]

/-- C10: replacing the final block's index, timestamp and transactions
while keeping its proof and previous_hash leaves the verdict of valid_chain
unchanged on every non-empty chain. -/
theorem valid_chain_ignores_last_metadata (bs : List Block) (b : Block) (idx : Nat) (ts : String)
    (txs : List Transaction) :
    Blockchain.valid_chain (bs ++ [Block.mk idx ts txs b.proof b.previous_hash]) =
    Blockchain.valid_chain (bs ++ [b]) := by
  cases bs with
  | nil => simp only [List.nil_append, Blockchain.valid_chain, validChainLoop]
  | cons f rest =>
    simp only [List.cons_append, Blockchain.valid_chain]
    exact validChainLoop_last_metadata (Block.mk idx ts txs b.proof b.previous_hash) b rfl rfl
      rest f (Block.hash f)

/-- C4: processing the fetched responses in order is exactly the
spec-level rule: adopt a candidate precisely when its reported length
exceeds the length of the chain held so far and it validates, comparing
each later candidate against the chain as already replaced; the pool and
the peer set are untouched. -/
theorem resolve_conflicts_refines_spec (bc : Blockchain) (rs : List FullChain) :
    (Blockchain.resolve_conflicts bc rs).chain = resolveSpec bc.chain rs ∧
    (Blockchain.resolve_conflicts bc rs).current_transactions = bc.current_transactions ∧
    (Blockchain.resolve_conflicts bc rs).nodes = bc.nodes := by
  induction rs generalizing bc with
  | nil => exact ⟨rfl, rfl, rfl⟩
  | cons r rs ih =>
    have hstep : Blockchain.resolve_conflicts bc (r :: rs) =
        Blockchain.resolve_conflicts (resolveStep bc r) rs := rfl
    rw [hstep]
    by_cases hc : r.length > bc.chain.length ∧ Blockchain.valid_chain r.chain = true
    · have hcond : (decide (r.length > bc.chain.length) && Blockchain.valid_chain r.chain) = true := by
        simp only [Bool.and_eq_true, decide_eq_true_eq]
        exact ⟨hc.1, hc.2⟩
      have h1 : resolveStep bc r = { bc with chain := r.chain } := by
        unfold resolveStep
        rw [if_pos hcond]
      have h2 : resolveSpec bc.chain (r :: rs) = resolveSpec r.chain rs := by
        simp only [resolveSpec]
        rw [if_pos hc]
      obtain ⟨ihc, ihp, ihn⟩ := ih { bc with chain := r.chain }
      exact ⟨by rw [h1, h2]; exact ihc, by rw [h1]; exact ihp, by rw [h1]; exact ihn⟩
    · have hcond : ¬ ((decide (r.length > bc.chain.length) && Blockchain.valid_chain r.chain) = true) := by
        simp only [Bool.and_eq_true, decide_eq_true_eq]
        exact hc
      have h1 : resolveStep bc r = bc := by
        unfold resolveStep
        rw [if_neg hcond]
      have h2 : resolveSpec bc.chain (r :: rs) = resolveSpec bc.chain rs := by
        simp only [resolveSpec]
        rw [if_neg hc]
      obtain ⟨ihc, ihp, ihn⟩ := ih bc
      exact ⟨by rw [h1, h2]; exact ihc, by rw [h1]; exact ihp, by rw [h1]; exact ihn⟩

/-- C5 counterexample: a peer response that reports length 5 for a
single-block candidate makes resolve_conflicts shorten a two-block local
chain, because the length test trusts the reported length while the
replacement installs the candidate chain itself. -/
theorem resolve_conflicts_can_shorten :
    (Blockchain.resolve_conflicts cbLocal [cbShortResp]).chain.length < cbLocal.chain.length := by
  decide

/-- C5 amended: when every response's reported length equals the actual
length of its candidate chain, as full_chain produces, conflict resolution
never shortens the local chain. -/
theorem resolve_conflicts_length_monotone (bc : Blockchain) (rs : List FullChain)
    (hlen : ∀ r ∈ rs, FullChain.length r = r.chain.length) :
    bc.chain.length ≤ (Blockchain.resolve_conflicts bc rs).chain.length := by
  induction rs generalizing bc with
  | nil => exact Nat.le_refl _
  | cons r rs ih =>
    have hr : FullChain.length r = r.chain.length := hlen r (by simp)
    have hrest : ∀ x ∈ rs, FullChain.length x = x.chain.length := fun x hx => hlen x (by simp [hx])
    have hstep : Blockchain.resolve_conflicts bc (r :: rs) =
        Blockchain.resolve_conflicts (resolveStep bc r) rs := rfl
    rw [hstep]
    refine Nat.le_trans ?_ (ih (resolveStep bc r) hrest)
    unfold resolveStep
    split
    · rename_i hcond
      simp only [Bool.and_eq_true, decide_eq_true_eq] at hcond
      exact Nat.le_of_lt (Nat.lt_of_lt_of_eq hcond.1 hr)
    · exact Nat.le_refl _

/-- C5 amended witness: a genesis ledger and one honest response. -/
theorem resolve_conflicts_length_monotone_witness :
    (Blockchain.new "2019-01-01 00:00:00 UTC").chain.length ≤
      (Blockchain.resolve_conflicts (Blockchain.new "2019-01-01 00:00:00 UTC")
        [cbHonestResp]).chain.length :=
  resolve_conflicts_length_monotone (Blockchain.new "2019-01-01 00:00:00 UTC") [cbHonestResp]
    (by decide)

set_option maxHeartbeats 1000000

/-- C1: concrete exhibit of the stale previous-block hash in valid_chain.
The three-block chain cbB1, cbB2, cbB3 satisfies the claimed validity
condition at every position: each later block's previous_hash equals the
hash of its predecessor and each adjacent pair satisfies valid_proof
against that predecessor's hash.  valid_chain nevertheless returns false,
because the source computes prev_block_hash once from the first block and
never recomputes it when prev_block advances, so the third block is
checked against the hash of the first. -/
theorem valid_chain_stale_prev_hash :
    cbB2.previous_hash = Block.hash cbB1 ∧
    cbB3.previous_hash = Block.hash cbB2 ∧
    Blockchain.valid_proof cbB1.proof cbB2.proof (Block.hash cbB1) = true ∧
    Blockchain.valid_proof cbB2.proof cbB3.proof (Block.hash cbB2) = true ∧
    Blockchain.valid_chain [cbB1, cbB2, cbB3] = false :=
  ⟨by decide, by decide, by decide, by decide, by decide⟩

/-- C3: whenever some solution exists for the last block, proof_of_work
terminates and returns the least non-negative solution: its result
satisfies valid_proof and every smaller candidate fails it. -/
theorem proof_of_work_min (lb : Block)
    (ex : ∃ p, Blockchain.valid_proof lb.proof p (Block.hash lb) = true) :
    Blockchain.valid_proof lb.proof (Blockchain.proof_of_work lb ex) (Block.hash lb) = true ∧
    ∀ q, q < Blockchain.proof_of_work lb ex →
      Blockchain.valid_proof lb.proof q (Block.hash lb) = false := by
  unfold Blockchain.proof_of_work
  refine ⟨Nat.find_spec ex, fun q hq => ?_⟩
  simpa using Nat.find_min ex hq

/-- Solvability of the mining puzzle for the concrete block cbB1: the
offline-mined value 79018 is a solution. -/
theorem powExists : ∃ p, Blockchain.valid_proof cbB1.proof p (Block.hash cbB1) = true :=
  ⟨79018, by decide⟩

/-- C3 witness: proof_of_work applied to the concrete block cbB1. -/
theorem proof_of_work_min_witness :
    Blockchain.valid_proof cbB1.proof (Blockchain.proof_of_work cbB1 powExists)
      (Block.hash cbB1) = true :=
  (proof_of_work_min cbB1 powExists).1
